import Mathlib

/-!
# Verification of the typeclass modules (Semigroup, Covariant, Predicate)

Shallow embedding of the repository's typeclass modules:

* `src/typeclass/Semigroup.ts` — the `Semigroup` record and its constructors
  (`fromCombine`, `min`, `max`, `constant`, `reverse`, `struct`, `tuple`,
  `intercalate`, `first`, `last`, `imap`) and the `Product` instance
  (`of`, `productAll`).
* `src/typeclass/Covariant.ts` — the `Covariant` record, `imap`, `make`,
  `mapComposition`.
* `test/data/Predicate.ts` — the `Predicate` data type with `of` and the
  `Product` instance's `productAll`.

Conventions of the embedding:

* The source's curried functions `(that) => (self) => ...` become binary
  Lean functions `fun that self => ...`; so `combine that self` is the
  source's `combine(that)(self)` (`that` is the right/later operand and
  `self` the left/earlier one, as in `pipe(self, combine(that))`).
* `Iterable<A>` arguments become `List A` (finite sequences, in order).
* `Order<A>.compare (that) (self)` returns an `Int` in `{-1, 0, 1}`;
  `compare that self = -1` means `self` is smaller than `that`.
* Tuples `A` of unknown arity are modelled homogeneously as `List A`; the
  source indexes `that[i]`/`self[i]` under an equal-arity precondition that
  the TypeScript type system enforces, which the embedding renders by
  zipping (identical behaviour whenever the arity precondition holds, and
  for the empty family, where the source's `semigroups.map` ignores its
  arguments entirely).
* Structs are modelled as dependent functions from a type of keys.
-/

namespace Fp

/-- `Semigroup<A>` from `src/typeclass/Semigroup.ts`:
`{ combine: (that: A) => (self: A) => A, combineMany: (collection: Iterable<A>) => (self: A) => A }`. -/
structure Semigroup (A : Type) where
  combine : A → A → A
  combineMany : List A → A → A

/-- `Order<A>` from `src/typeclass/Order.ts` (consumed by `min`/`max`):
a three-way comparator `compare: (that: A) => (self: A) => -1 | 0 | 1`. -/
structure Order (A : Type) where
  compare : A → A → Int

namespace Semigroup

/-- `fromCombine(combine)`: derives `combineMany` as the iterative left fold
`let out = self; for (const a of collection) out = combine(a)(out); return out`. -/
def fromCombine {A : Type} (combine : A → A → A) : Semigroup A where
  combine := combine
  combineMany := fun collection self => collection.foldl (fun out a => combine a out) self

/-- `min(O)`: `fromCombine((that) => (self) => O.compare(that)(self) === -1 ? self : that)`. -/
def min {A : Type} (O : Order A) : Semigroup A :=
  fromCombine (fun that self => if O.compare that self = -1 then self else that)

/-- `max(O)`: `fromCombine((that) => (self) => O.compare(that)(self) === 1 ? self : that)`. -/
def max {A : Type} (O : Order A) : Semigroup A :=
  fromCombine (fun that self => if O.compare that self = 1 then self else that)

/-- `constant(a)`: both `combine` and `combineMany` ignore their arguments and return `a`. -/
def constant {A : Type} (a : A) : Semigroup A where
  combine := fun _ _ => a
  combineMany := fun _ _ => a

/-- `reverse(S)`: flips `combine`; `combineMany` reverses the collection and,
when nonempty, computes `S.combine(self)(S.combineMany(reversed.slice(1))(reversed[0]))`,
otherwise returns `self`. -/
def reverse {A : Type} (S : Semigroup A) : Semigroup A where
  combine := fun that self => S.combine self that
  combineMany := fun collection self =>
    match collection.reverse with
    | [] => self
    | r0 :: rest => S.combine self (S.combineMany rest r0)

/-- `struct(semigroups)`: combines key-wise,
`r[k] = semigroups[k].combine(that[k])(self[k])` for each key `k` of `semigroups`.
Records sharing the key set of `semigroups` are modelled as dependent functions on the key type. -/
def struct {K : Type} {A : K → Type} (semigroups : ∀ k, Semigroup (A k)) :
    Semigroup (∀ k, A k) :=
  fromCombine (fun that self => fun k => (semigroups k).combine (that k) (self k))

/-- `tuple(...semigroups)`: combines position-wise,
`semigroups.map((S, i) => S.combine(that[i])(self[i]))`. The source indexes
`that`/`self` under the equal-arity precondition; zipping agrees with it
whenever that precondition holds, and on the empty family regardless. -/
def tuple {A : Type} (semigroups : List (Semigroup A)) : Semigroup (List A) :=
  fromCombine (fun that self =>
    (semigroups.zip (that.zip self)).map (fun p => p.1.combine p.2.1 p.2.2))

/-- `intercalate(separator)(S)`: `fromCombine((that) => S.combineMany([separator, that]))`. -/
def intercalate {A : Type} (separator : A) (S : Semigroup A) : Semigroup A :=
  fromCombine (fun that => S.combineMany [separator, that])

/-- `first()`: `combine` and `combineMany` are `() => identity` (always return `self`). -/
def first {A : Type} : Semigroup A where
  combine := fun _ self => self
  combineMany := fun _ self => self

/-- `last()`: `combine` returns the later operand; `combineMany` runs
`let a = self; for (a of collection) {}; return a`, i.e. keeps overwriting an
accumulator, which the embedding renders as a fold keeping only the new element. -/
def last {A : Type} : Semigroup A where
  combine := fun second _ => second
  combineMany := fun collection self => collection.foldl (fun _ a => a) self

/-- `imap(to, from)(S)`: transports `S` across the pair `(to, from)`,
`combine: that => self => to(S.combine(from(that))(from(self)))` and
`combineMany: collection => self => to(S.combineMany(collection.map(from))(from(self)))`. -/
def imap {A B : Type} (to_ : A → B) (from_ : B → A) (S : Semigroup A) : Semigroup B where
  combine := fun that self => to_ (S.combine (from_ that) (from_ self))
  combineMany := fun collection self =>
    to_ (S.combineMany (collection.map from_) (from_ self))

/-- The `Product` instance's `of` is `constant`. -/
def Product.of {A : Type} (a : A) : Semigroup A := constant a

/-- The `Product` instance's `productAll`:
`(collection) => tuple(...collection)`. -/
def Product.productAll {A : Type} (collection : List (Semigroup A)) : Semigroup (List A) :=
  tuple collection

end Semigroup

/-- `Covariant<F>` from `src/typeclass/Covariant.ts`: a `map` together with the
`imap` it extends from `Invariant<F>`. The type-constructor parameters
`R, O, E` of the source's `Kind` are phantom for these modules and are dropped. -/
structure Covariant (F : Type → Type) where
  map : ∀ {A B : Type}, (A → B) → F A → F B
  imap : ∀ {A B : Type}, (A → B) → (B → A) → F A → F B

namespace Covariant

/-- The module-level `imap(map) = (to, _) => map(to)`: the default `imap`
derived from a `map`, discarding the second function. (Named `imapDefault`
here because the record field `imap` occupies the source's name.) -/
def imapDefault {F : Type → Type} (map : ∀ {A B : Type}, (A → B) → F A → F B) :
    ∀ {A B : Type}, (A → B) → (B → A) → F A → F B :=
  fun to_ _ => map to_

/-- `make(map)`: packages `map` with the derived `imap`. -/
def make {F : Type → Type} (map : ∀ {A B : Type}, (A → B) → F A → F B) : Covariant F where
  map := map
  imap := imapDefault map

/-- `mapComposition(F, G) = f => F.map(G.map(f))`. -/
def mapComposition {F G : Type → Type} (Fc : Covariant F) (Gc : Covariant G) :
    ∀ {A B : Type}, (A → B) → F (G A) → F (G B) :=
  fun f => Fc.map (Gc.map f)

end Covariant

/-- `Predicate<A>` from `test/data/Predicate.ts`: `(a: A) => boolean`. -/
def Predicate (A : Type) : Type := A → Bool

namespace Predicate

/-- `of = (_) => () => true`: lifts any value to the constant-true predicate. -/
def of {A : Type} (_ : A) : Predicate A := fun _ => true

/-- The `Predicate` `Product` instance's `productAll`: loops over the
collected predicates, returning `false` as soon as `predicates[i](as[i])`
is false, else `true`. The source indexes `as[i]` under the equal-arity
precondition; zipping agrees with it whenever that precondition holds, and
on the empty collection regardless. -/
def Product.productAll {A : Type} (collection : List (Predicate A)) : Predicate (List A) :=
  fun as => (collection.zip as).all (fun p => p.1 p.2)

/-- The `Predicate` `Product` instance's `of` is the module-level `of`. -/
def Product.of {A : Type} (a : A) : Predicate A := Predicate.of a

end Predicate

/-- The iterative left fold of `combine` across `xs` starting from `s`,
exactly as `fromCombine` derives `combineMany`:
`let out = s; for (const a of xs) out = combine(a)(out); return out`. -/
def foldCombine {A : Type} (combine : A → A → A) (xs : List A) (s : A) : A :=
  xs.foldl (fun out a => combine a out) s

/-- Associativity in the spec's orientation:
`combine(combine(a)(b))(c) == combine(a)(combine(b)(c))`. -/
def IsAssoc {A : Type} (combine : A → A → A) : Prop :=
  ∀ a b c, combine (combine a b) c = combine a (combine b c)

/-- A lawful `Semigroup`: `combine` is associative and `combineMany(xs)(s)`
is the iterative left fold of `combine` across `xs` starting from `s`
(the spec's stated invariant of the typeclass). -/
def Semigroup.Lawful {A : Type} (S : Semigroup A) : Prop :=
  IsAssoc S.combine ∧ ∀ xs s, S.combineMany xs s = foldCombine S.combine xs s

/-- A lawful total `Order`: `compare` lands in `{-1, 0, 1}` (trichotomy),
satisfies `compare(a)(b) == -compare(b)(a)`, and the derived reflexive
relation (`compare(that)(self) ≤ 0`, "self is at most that") is transitive. -/
def Order.Lawful {A : Type} (O : Order A) : Prop :=
  (∀ x y, O.compare x y = -1 ∨ O.compare x y = 0 ∨ O.compare x y = 1) ∧
  (∀ x y, O.compare x y = -O.compare y x) ∧
  (∀ x y z, O.compare x y ≤ 0 → O.compare y z ≤ 0 → O.compare x z ≤ 0)

/-- Modelled from the spec: the `string.Semigroup` test fixture (its source
file is not under `src/`), the string-concatenation semigroup used by the
spec's concrete scenarios: `combine(that)(self) = self + that`. -/
def stringSemigroup : Semigroup String :=
  Semigroup.fromCombine (fun that self => self ++ that)

/-- Modelled from the spec: the `number.SemigroupSum` test fixture (its
source file is not under `src/`), numeric addition, with numbers taken as
integers: `combine(that)(self) = self + that`. -/
def numberSumSemigroup : Semigroup Int :=
  Semigroup.fromCombine (fun that self => self + that)

/-- Modelled from the spec: the `number.Order` test fixture (its source file
is not under `src/`): `compare(that)(self)` is `-1` when `self < that`,
`1` when `self > that`, else `0`. -/
def numberOrder : Order Int :=
  ⟨fun that self => if self < that then -1 else if that < self then 1 else 0⟩

/-- An `Order` on pairs comparing only the first component, as the
repository's tests build with `order.contramap((item) => item.a)` over the
numeric order; distinct pairs can compare as ties. -/
def pairFstOrder : Order (Int × Int) :=
  ⟨fun that self => numberOrder.compare that.1 self.1⟩

/-- The key set `{name, age}` of the spec's concrete `struct` scenario. -/
inductive StructKey : Type where
  | name
  | age

/-- Field types of the spec's concrete `struct` scenario:
`name` is a string, `age` a number. -/
def StructField : StructKey → Type
  | StructKey.name => String
  | StructKey.age => Int

/-- The per-field semigroups of the spec's concrete `struct` scenario:
`{name: stringSemigroup, age: numberSumSemigroup}`. -/
def structFixture : ∀ k, Semigroup (StructField k)
  | StructKey.name => stringSemigroup
  | StructKey.age => numberSumSemigroup

/-- A record `{name: n, age: a}` with the key set of `structFixture`. -/
def mkRecord (n : String) (a : Int) : ∀ k, StructField k
  | StructKey.name => n
  | StructKey.age => a

/-- The identity type constructor, used to instantiate `Covariant` on a
concrete lawful functor. -/
@[reducible] def IdF : Type → Type := fun A => A

/-- The identity functor's `Covariant` instance, built with `make`. -/
def idCovariant : Covariant IdF := Covariant.make (fun f x => f x)

/-! ## Helper lemmas -/

/-- `fromCombine` keeps the given `combine` unchanged. -/
theorem fromCombine_combine {A : Type} (f : A → A → A) :
    (Semigroup.fromCombine f).combine = f := rfl

/-- `fromCombine` derives `combineMany` as exactly the iterative left fold. -/
theorem fromCombine_combineMany {A : Type} (f : A → A → A) (xs : List A) (s : A) :
    (Semigroup.fromCombine f).combineMany xs s = foldCombine f xs s := rfl

/-- A fold whose step ignores the new element keeps the seed. -/
theorem foldl_keep_acc {A B : Type} (xs : List B) (s : A) :
    xs.foldl (fun out _ => out) s = s := by
  induction xs generalizing s with
  | nil => rfl
  | cons x xs ih => exact ih s

/-- `numberSumSemigroup` is a lawful semigroup. -/
theorem numberSumSemigroup_lawful : Semigroup.Lawful numberSumSemigroup :=
  ⟨fun a b c => by show c + (b + a) = (c + b) + a; omega, fun _ _ => rfl⟩

/-- `numberOrder` is a lawful total order. -/
theorem numberOrder_lawful : Order.Lawful numberOrder := by
  refine ⟨fun x y => ?_, fun x y => ?_, fun x y z => ?_⟩ <;>
    simp only [numberOrder] <;> split_ifs <;> omega

/-- `min` of a lawful total order has an associative `combine`. -/
theorem min_combine_assoc {A : Type} (O : Order A) (hL : Order.Lawful O) :
    IsAssoc (Semigroup.min O).combine := by
  obtain ⟨hr, hf, ht⟩ := hL
  intro a b c
  have t1 := ht a b c; have t2 := ht a c b; have t3 := ht b a c
  have t4 := ht b c a; have t5 := ht c a b; have t6 := ht c b a
  have g1 : O.compare b a = -O.compare a b := hf b a
  have g2 : O.compare c b = -O.compare b c := hf c b
  have g3 : O.compare c a = -O.compare a c := hf c a
  rw [g2] at t2; rw [g1] at t3; rw [g1, g3] at t4
  rw [g3, g2] at t5; rw [g2, g1, g3] at t6
  show (if O.compare (if O.compare a b = -1 then b else a) c = -1 then c
        else if O.compare a b = -1 then b else a) =
       (if O.compare a (if O.compare b c = -1 then c else b) = -1
        then if O.compare b c = -1 then c else b else a)
  rcases hr a b with hab | hab | hab <;>
    rcases hr b c with hbc | hbc | hbc <;>
    rcases hr a c with hac | hac | hac <;>
    simp only [hab, hbc, hac] at t1 t2 t3 t4 t5 t6 ⊢ <;>
    (try norm_num) <;>
    (try simp only [hab, hbc, hac]) <;>
    (try norm_num) <;>
    (try norm_num at t1 t2 t3 t4 t5 t6)

/-- `max` of a lawful total order has an associative `combine`. -/
theorem max_combine_assoc {A : Type} (O : Order A) (hL : Order.Lawful O) :
    IsAssoc (Semigroup.max O).combine := by
  obtain ⟨hr, hf, ht⟩ := hL
  intro a b c
  have t1 := ht a b c; have t2 := ht a c b; have t3 := ht b a c
  have t4 := ht b c a; have t5 := ht c a b; have t6 := ht c b a
  have g1 : O.compare b a = -O.compare a b := hf b a
  have g2 : O.compare c b = -O.compare b c := hf c b
  have g3 : O.compare c a = -O.compare a c := hf c a
  rw [g2] at t2; rw [g1] at t3; rw [g1, g3] at t4
  rw [g3, g2] at t5; rw [g2, g1, g3] at t6
  show (if O.compare (if O.compare a b = 1 then b else a) c = 1 then c
        else if O.compare a b = 1 then b else a) =
       (if O.compare a (if O.compare b c = 1 then c else b) = 1
        then if O.compare b c = 1 then c else b else a)
  rcases hr a b with hab | hab | hab <;>
    rcases hr b c with hbc | hbc | hbc <;>
    rcases hr a c with hac | hac | hac <;>
    simp only [hab, hbc, hac] at t1 t2 t3 t4 t5 t6 ⊢ <;>
    (try norm_num) <;>
    (try simp only [hab, hbc, hac]) <;>
    (try norm_num) <;>
    (try norm_num at t1 t2 t3 t4 t5 t6)

/-- Folding an associative `g` into a final element equals prepending the
seed to a right fold. -/
theorem foldl_concat_assoc {A : Type} (g : A → A → A) (hg : IsAssoc g) :
    ∀ (ys : List A) (s x : A), g (List.foldl g s ys) x = g s (List.foldr g x ys) := by
  intro ys
  induction ys with
  | nil => intro s x; rfl
  | cons y ys ih =>
    intro s x
    show g (List.foldl g (g s y) ys) x = g s (g y (List.foldr g x ys))
    rw [ih (g s y) x, hg]

/-- `reverse(S)` of a lawful semigroup satisfies the left-fold law for its
own (flipped) `combine`. -/
theorem reverse_combineMany_fold {A : Type} (S : Semigroup A)
    (hS : Semigroup.Lawful S) (xs : List A) (s : A) :
    (Semigroup.reverse S).combineMany xs s
      = foldCombine (Semigroup.reverse S).combine xs s := by
  obtain ⟨ha, hm⟩ := hS
  have hL : (Semigroup.reverse S).combineMany xs s
      = match xs.reverse with
        | [] => s
        | r0 :: rest => S.combine s (S.combineMany rest r0) := rfl
  rcases hxs : xs.reverse with _ | ⟨r0, rest⟩
  · have hnil : xs = [] := by simpa using congrArg List.reverse hxs
    subst hnil; rfl
  · have hxseq : xs = rest.reverse ++ [r0] := by
      have h2 := congrArg List.reverse hxs
      simpa using h2
    rw [hL, hxs]
    show S.combine s (S.combineMany rest r0) = foldCombine (Semigroup.reverse S).combine xs s
    rw [hm rest r0, hxseq]
    show S.combine s (foldCombine S.combine rest r0)
        = List.foldl S.combine s (rest.reverse ++ [r0])
    rw [List.foldl_append]
    show S.combine s (foldCombine S.combine rest r0)
        = S.combine (List.foldl S.combine s rest.reverse) r0
    rw [foldl_concat_assoc S.combine ha, List.foldr_reverse]
    rfl

/-- Transporting a left fold across an isomorphism pair. -/
theorem foldl_transport {A B : Type} (to_ : A → B) (from_ : B → A)
    (hfrom_to : ∀ x, from_ (to_ x) = x) (hto_from : ∀ y, to_ (from_ y) = y)
    (g : A → A → A) :
    ∀ (xs : List B) (s : B),
      to_ (List.foldl (fun out a => g (from_ a) out) (from_ s) xs)
        = List.foldl (fun out a => to_ (g (from_ a) (from_ out))) s xs := by
  intro xs
  induction xs with
  | nil => intro s; exact hto_from s
  | cons x xs ih =>
    intro s
    show to_ (List.foldl _ (g (from_ x) (from_ s)) xs)
        = List.foldl _ (to_ (g (from_ x) (from_ s))) xs
    rw [← ih (to_ (g (from_ x) (from_ s))), hfrom_to]

/-- `imap` across an isomorphism of a lawful semigroup satisfies the
left-fold law for its own `combine`. -/
theorem imap_combineMany_fold {A B : Type} (to_ : A → B) (from_ : B → A)
    (hfrom_to : ∀ x, from_ (to_ x) = x) (hto_from : ∀ y, to_ (from_ y) = y)
    (S : Semigroup A) (hS : Semigroup.Lawful S) (xs : List B) (s : B) :
    (Semigroup.imap to_ from_ S).combineMany xs s
      = foldCombine (Semigroup.imap to_ from_ S).combine xs s := by
  obtain ⟨-, hm⟩ := hS
  show to_ (S.combineMany (xs.map from_) (from_ s)) = _
  rw [hm]
  show to_ (List.foldl (fun out a => S.combine a out) (from_ s) (xs.map from_)) = _
  rw [List.foldl_map]
  exact foldl_transport to_ from_ hfrom_to hto_from S.combine xs s

/-- `tuple` of componentwise-associative semigroups has an associative
`combine`. -/
theorem tuple_combine_assoc {A : Type} :
    ∀ (sgs : List (Semigroup A)), (∀ S ∈ sgs, IsAssoc S.combine) →
      IsAssoc (Semigroup.tuple sgs).combine := by
  intro sgs
  induction sgs with
  | nil => intro _ a b c; rfl
  | cons S rest ih =>
    intro h a b c
    cases a with
    | nil => rfl
    | cons x a' =>
      cases b with
      | nil => rfl
      | cons y b' =>
        cases c with
        | nil => rfl
        | cons z c' =>
          have hS : IsAssoc S.combine := h S (by simp)
          have ihh := ih (fun T hT => h T (by simp [hT])) a' b' c'
          show S.combine (S.combine x y) z
                :: (Semigroup.tuple rest).combine ((Semigroup.tuple rest).combine a' b') c'
              = S.combine x (S.combine y z)
                :: (Semigroup.tuple rest).combine a' ((Semigroup.tuple rest).combine b' c')
          rw [hS x y z, ihh]

/-- `intercalate` over a lawful semigroup has an associative `combine`. -/
theorem intercalate_combine_assoc {A : Type} (sep : A) (S : Semigroup A)
    (hS : Semigroup.Lawful S) : IsAssoc (Semigroup.intercalate sep S).combine := by
  obtain ⟨ha, hm⟩ := hS
  have key : ∀ x y, (Semigroup.intercalate sep S).combine x y
      = S.combine x (S.combine sep y) := by
    intro x y
    show S.combineMany [sep, x] y = _
    rw [hm]
    rfl
  intro a b c
  simp only [key]
  rw [ha, ha]

/-! ## Claims -/

/-- C10: `Predicate.of(a)` returns the constant-true predicate regardless of
the lifted value: for every value `a` and every input `x`, `of(a)(x) == true`,
so the result is independent of `a` and accepts every input. -/
theorem claim_C10_of_constant_true : ∀ (A : Type) (a x : A), Predicate.of a x = true :=
  fun _ _ _ => rfl

/-- C7: `Covariant.make(map)` derives an `imap` that discards its second
argument: for every `to`, every `x`, and any `from1`, `from2`,
`make(map).imap(to, from1)(x) == make(map).imap(to, from2)(x) == map(to)(x)`. -/
theorem claim_C7_make_imap_discards_from :
    ∀ (F : Type → Type) (map : ∀ A B : Type, (A → B) → F A → F B)
      (A B : Type) (to_ : A → B) (from1 from2 : B → A) (x : F A),
      (Covariant.make (fun {A B} => map A B)).imap to_ from1 x = map A B to_ x ∧
      (Covariant.make (fun {A B} => map A B)).imap to_ from1 x
        = (Covariant.make (fun {A B} => map A B)).imap to_ from2 x :=
  fun _ _ _ _ _ _ _ _ => ⟨rfl, rfl⟩

/-- C5: for `last()`, `combine(that)(self)` returns `that` for all operands;
`combineMany(xs)(s)` returns the final element of `xs` when `xs` is nonempty
(written `xs = ys ++ [x]`), and returns `s` when `xs` is empty. -/
theorem claim_C5_last :
    ∀ (A : Type),
      (∀ that self : A, (Semigroup.last).combine that self = that) ∧
      (∀ (ys : List A) (x s : A), (Semigroup.last).combineMany (ys ++ [x]) s = x) ∧
      (∀ s : A, (Semigroup.last).combineMany [] s = s) := by
  intro A
  refine ⟨fun _ _ => rfl, fun ys x s => ?_, fun _ => rfl⟩
  show (ys ++ [x]).foldl (fun _ a => a) s = x
  rw [List.foldl_append]
  rfl

/-- C8: zero-length `productAll` yields the neutral instance, extensionally
the one given by `of`: the Semigroup `Product.productAll([])` has `combine`
constantly `[]` and `combineMany` returning `[]` from the empty-tuple seed
(as does `Product.of([]) = constant([])`, whose `combine` and `combineMany`
are constantly `[]`), and the Predicate `Product.productAll([])` returns
`true` on every input (as does `of(a)`). -/
theorem claim_C8_productAll_empty_neutral :
    ∀ (A : Type),
      (∀ that self : List A,
        (Semigroup.Product.productAll ([] : List (Semigroup A))).combine that self = []) ∧
      (∀ xs : List (List A),
        (Semigroup.Product.productAll ([] : List (Semigroup A))).combineMany xs [] = []) ∧
      (∀ that self : List A,
        (Semigroup.Product.of ([] : List A)).combine that self = []) ∧
      (∀ (xs : List (List A)) (s : List A),
        (Semigroup.Product.of ([] : List A)).combineMany xs s = []) ∧
      (∀ as : List A,
        Predicate.Product.productAll ([] : List (Predicate A)) as = true) ∧
      (∀ a x : A, Predicate.Product.of a x = true) := by
  intro A
  refine ⟨fun _ _ => rfl, fun xs => ?_, fun _ _ => rfl, fun _ _ => rfl,
    fun _ => rfl, fun _ _ => rfl⟩
  induction xs with
  | nil => rfl
  | cons x xs ih => exact ih

/-- C9: `struct(semigroups).combine(that)(self)` is the record whose value at
each key `k` is `semigroups[k].combine(that[k])(self[k])` (same key set
enforced by the dependent-function type); concretely, combining
`{name:"a",age:10}` and `{name:"b",age:20}` under
`{name: stringSemigroup, age: numberSumSemigroup}` gives `{name:"ab",age:30}`. -/
theorem claim_C9_struct_fieldwise :
    (∀ (K : Type) (A : K → Type) (semigroups : ∀ k, Semigroup (A k))
       (that self : ∀ k, A k) (k : K),
       (Semigroup.struct semigroups).combine that self k
         = (semigroups k).combine (that k) (self k)) ∧
    (Semigroup.struct structFixture).combine (mkRecord "b" 20) (mkRecord "a" 10)
      = mkRecord "ab" 30 := by
  refine ⟨fun _ _ _ _ _ _ => rfl, funext fun k => ?_⟩
  cases k
  · show stringSemigroup.combine "b" "a" = "ab"
    decide
  · show numberSumSemigroup.combine 20 10 = 30
    decide

/-- C1 counterexample: `constant(1).combineMany([])(0)` returns `1`, while the
iterative left fold of its `combine` across `[]` starting from `0` returns the
seed `0`; so `combineMany([])(s) == s` fails for the `constant` constructor. -/
theorem claim_C1_counterexample :
    (Semigroup.constant (1 : Int)).combineMany [] 0 = 1 ∧
    foldCombine (Semigroup.constant (1 : Int)).combine [] 0 = 0 ∧
    (Semigroup.constant (1 : Int)).combineMany [] 0 ≠ 0 := by
  refine ⟨rfl, rfl, ?_⟩
  decide

/-- C1 amended: `combineMany(xs)(s)` equals the iterative left fold of
`combine` across `xs` starting from `s` for the instances built by
`fromCombine` (hence for `min`, `max`, `struct`, `tuple`, `intercalate`) and
for `first` and `last`; for `reverse(S)` it holds when `S` is lawful, and for
`imap(to, from)(S)` when `S` is lawful and `(to, from)` is an isomorphism;
`constant(a)`'s `combineMany` instead returns `a` on every input — in
particular `constant(a).combineMany([])(s) = a`, not `s`. -/
theorem claim_C1_combineMany_foldl :
    (∀ (A : Type) (f : A → A → A) (xs : List A) (s : A),
       (Semigroup.fromCombine f).combineMany xs s
         = foldCombine (Semigroup.fromCombine f).combine xs s) ∧
    (∀ (A : Type) (O : Order A) (xs : List A) (s : A),
       (Semigroup.min O).combineMany xs s
         = foldCombine (Semigroup.min O).combine xs s) ∧
    (∀ (A : Type) (O : Order A) (xs : List A) (s : A),
       (Semigroup.max O).combineMany xs s
         = foldCombine (Semigroup.max O).combine xs s) ∧
    (∀ (K : Type) (A : K → Type) (sgs : ∀ k, Semigroup (A k))
       (xs : List (∀ k, A k)) (s : ∀ k, A k),
       (Semigroup.struct sgs).combineMany xs s
         = foldCombine (Semigroup.struct sgs).combine xs s) ∧
    (∀ (A : Type) (sgs : List (Semigroup A)) (xs : List (List A)) (s : List A),
       (Semigroup.tuple sgs).combineMany xs s
         = foldCombine (Semigroup.tuple sgs).combine xs s) ∧
    (∀ (A : Type) (sep : A) (S : Semigroup A) (xs : List A) (s : A),
       (Semigroup.intercalate sep S).combineMany xs s
         = foldCombine (Semigroup.intercalate sep S).combine xs s) ∧
    (∀ (A : Type) (xs : List A) (s : A),
       (Semigroup.first : Semigroup A).combineMany xs s
         = foldCombine (Semigroup.first : Semigroup A).combine xs s) ∧
    (∀ (A : Type) (xs : List A) (s : A),
       (Semigroup.last : Semigroup A).combineMany xs s
         = foldCombine (Semigroup.last : Semigroup A).combine xs s) ∧
    (∀ (A : Type) (S : Semigroup A), Semigroup.Lawful S → ∀ (xs : List A) (s : A),
       (Semigroup.reverse S).combineMany xs s
         = foldCombine (Semigroup.reverse S).combine xs s) ∧
    (∀ (A B : Type) (to_ : A → B) (from_ : B → A),
       (∀ x, from_ (to_ x) = x) → (∀ y, to_ (from_ y) = y) →
       ∀ (S : Semigroup A), Semigroup.Lawful S → ∀ (xs : List B) (s : B),
       (Semigroup.imap to_ from_ S).combineMany xs s
         = foldCombine (Semigroup.imap to_ from_ S).combine xs s) ∧
    (∀ (A : Type) (a : A) (xs : List A) (s : A),
       (Semigroup.constant a).combineMany xs s = a) := by
  refine ⟨fun _ _ _ _ => rfl, fun _ _ _ _ => rfl, fun _ _ _ _ => rfl,
    fun _ _ _ _ _ => rfl, fun _ _ _ _ => rfl, fun _ _ _ _ _ => rfl,
    fun A xs s => (foldl_keep_acc xs s).symm, fun _ _ _ => rfl,
    fun _ S hS => reverse_combineMany_fold S hS,
    fun _ _ to_ from_ h1 h2 S hS => imap_combineMany_fold to_ from_ h1 h2 S hS,
    fun _ _ _ _ => rfl⟩

/-- C1 witness: the fold law applied to concrete lawful inputs for the
hypothesis-bearing conjuncts (`reverse` and `imap`). -/
theorem claim_C1_witness :
    (Semigroup.reverse numberSumSemigroup).combineMany [1, 2] 0
      = foldCombine (Semigroup.reverse numberSumSemigroup).combine [1, 2] 0 ∧
    (Semigroup.imap (fun x : Int => -x) (fun x : Int => -x) numberSumSemigroup).combineMany [3] 4
      = foldCombine
          (Semigroup.imap (fun x : Int => -x) (fun x : Int => -x) numberSumSemigroup).combine
          [3] 4 :=
  ⟨claim_C1_combineMany_foldl.2.2.2.2.2.2.2.2.1 Int numberSumSemigroup
      numberSumSemigroup_lawful [1, 2] 0,
   claim_C1_combineMany_foldl.2.2.2.2.2.2.2.2.2.1 Int Int (fun x => -x) (fun x => -x)
      (fun x => neg_neg x) (fun y => neg_neg y) numberSumSemigroup
      numberSumSemigroup_lawful [3] 4⟩

/-- C2 counterexample: under the pair order that compares only first
components, `(1,1)` and `(1,0)` tie (`compare == 0`), yet
`min.combine((1,1))((1,0))` returns the later operand `(1,1)`, not the
earlier operand `(1,0)` that the claim states. -/
theorem claim_C2_counterexample :
    pairFstOrder.compare (1, 1) (1, 0) = 0 ∧
    (Semigroup.min pairFstOrder).combine (1, 1) (1, 0) = (1, 1) ∧
    (Semigroup.min pairFstOrder).combine (1, 1) (1, 0) ≠ (1, 0) := by
  refine ⟨by decide, by decide, by decide⟩

/-- C2 amended: on a tie (`compare(that)(self) == 0`) both
`min(O).combine(that)(self)` and `max(O).combine(that)(self)` return `that`
(the later/right operand); on strict outcomes `min` returns the strictly
smaller operand and `max` the strictly larger one (`compare == -1` means
`self` is smaller, `compare == 1` means `self` is larger). -/
theorem claim_C2_min_max_tie_and_strict :
    ∀ (A : Type) (O : Order A) (that self : A),
      (O.compare that self = 0 →
        (Semigroup.min O).combine that self = that ∧
        (Semigroup.max O).combine that self = that) ∧
      (O.compare that self = -1 →
        (Semigroup.min O).combine that self = self ∧
        (Semigroup.max O).combine that self = that) ∧
      (O.compare that self = 1 →
        (Semigroup.min O).combine that self = that ∧
        (Semigroup.max O).combine that self = self) := by
  intro A O that self
  refine ⟨fun h => ⟨?_, ?_⟩, fun h => ⟨?_, ?_⟩, fun h => ⟨?_, ?_⟩⟩
  · show (if O.compare that self = -1 then self else that) = that
    rw [h]; norm_num
  · show (if O.compare that self = 1 then self else that) = that
    rw [h]; norm_num
  · show (if O.compare that self = -1 then self else that) = self
    rw [h]; norm_num
  · show (if O.compare that self = 1 then self else that) = that
    rw [h]; norm_num
  · show (if O.compare that self = -1 then self else that) = that
    rw [h]; norm_num
  · show (if O.compare that self = 1 then self else that) = self
    rw [h]; norm_num

/-- C2 witness: on the numeric order, the tie `5,5` resolves to the later
operand for both `min` and `max`, and the strict case `that = 7`, `self = 4`
gives `min = 4`, `max = 7`. -/
theorem claim_C2_witness :
    (Semigroup.min numberOrder).combine 5 5 = 5 ∧
    (Semigroup.max numberOrder).combine 5 5 = 5 ∧
    (Semigroup.min numberOrder).combine 7 4 = 4 ∧
    (Semigroup.max numberOrder).combine 7 4 = 7 :=
  ⟨((claim_C2_min_max_tie_and_strict Int numberOrder 5 5).1 (by decide)).1,
   ((claim_C2_min_max_tie_and_strict Int numberOrder 5 5).1 (by decide)).2,
   ((claim_C2_min_max_tie_and_strict Int numberOrder 7 4).2.1 (by decide)).1,
   ((claim_C2_min_max_tie_and_strict Int numberOrder 7 4).2.1 (by decide)).2⟩

/-- C3: `combine` is associative for every constructed instance from lawful
inputs — a total `Order` for `min`/`max`; associative component combines for
`fromCombine`, `reverse`, `struct`, `tuple`; a lawful semigroup for
`intercalate`; an isomorphism pair over an associative semigroup for `imap`;
no hypothesis for `constant`, `first`, `last`. -/
theorem claim_C3_assoc :
    (∀ (A : Type) (f : A → A → A), IsAssoc f →
       IsAssoc (Semigroup.fromCombine f).combine) ∧
    (∀ (A : Type) (O : Order A), Order.Lawful O →
       IsAssoc (Semigroup.min O).combine) ∧
    (∀ (A : Type) (O : Order A), Order.Lawful O →
       IsAssoc (Semigroup.max O).combine) ∧
    (∀ (A : Type) (a : A), IsAssoc (Semigroup.constant a).combine) ∧
    (∀ (A : Type), IsAssoc (Semigroup.first : Semigroup A).combine) ∧
    (∀ (A : Type), IsAssoc (Semigroup.last : Semigroup A).combine) ∧
    (∀ (A : Type) (S : Semigroup A), IsAssoc S.combine →
       IsAssoc (Semigroup.reverse S).combine) ∧
    (∀ (K : Type) (A : K → Type) (sgs : ∀ k, Semigroup (A k)),
       (∀ k, IsAssoc (sgs k).combine) → IsAssoc (Semigroup.struct sgs).combine) ∧
    (∀ (A : Type) (sgs : List (Semigroup A)),
       (∀ S ∈ sgs, IsAssoc S.combine) → IsAssoc (Semigroup.tuple sgs).combine) ∧
    (∀ (A : Type) (sep : A) (S : Semigroup A), Semigroup.Lawful S →
       IsAssoc (Semigroup.intercalate sep S).combine) ∧
    (∀ (A B : Type) (to_ : A → B) (from_ : B → A),
       (∀ x, from_ (to_ x) = x) → (∀ y, to_ (from_ y) = y) →
       ∀ (S : Semigroup A), IsAssoc S.combine →
         IsAssoc (Semigroup.imap to_ from_ S).combine) := by
  refine ⟨fun _ _ hf => hf,
    fun _ O hL => min_combine_assoc O hL,
    fun _ O hL => max_combine_assoc O hL,
    fun _ _ _ _ _ => rfl,
    fun _ _ _ _ => rfl,
    fun _ _ _ _ => rfl,
    fun _ S hS a b c => (hS c b a).symm,
    fun _ _ sgs h a b c => funext fun k => h k (a k) (b k) (c k),
    fun _ sgs h => tuple_combine_assoc sgs h,
    fun _ sep S hS => intercalate_combine_assoc sep S hS,
    ?_⟩
  intro A B to_ from_ hfrom_to hto_from S hS a b c
  show to_ (S.combine (from_ (to_ (S.combine (from_ a) (from_ b)))) (from_ c))
      = to_ (S.combine (from_ a) (from_ (to_ (S.combine (from_ b) (from_ c)))))
  rw [hfrom_to, hfrom_to, hS]

/-- C3 witness: associativity instantiated on the numeric order's `min` and
`max` and on `intercalate` over the numeric sum semigroup. -/
theorem claim_C3_witness :
    (Semigroup.min numberOrder).combine ((Semigroup.min numberOrder).combine 1 2) 3
      = (Semigroup.min numberOrder).combine 1 ((Semigroup.min numberOrder).combine 2 3) ∧
    (Semigroup.max numberOrder).combine ((Semigroup.max numberOrder).combine 1 2) 3
      = (Semigroup.max numberOrder).combine 1 ((Semigroup.max numberOrder).combine 2 3) ∧
    (Semigroup.intercalate 7 numberSumSemigroup).combine
        ((Semigroup.intercalate 7 numberSumSemigroup).combine 1 2) 3
      = (Semigroup.intercalate 7 numberSumSemigroup).combine 1
          ((Semigroup.intercalate 7 numberSumSemigroup).combine 2 3) :=
  ⟨claim_C3_assoc.2.1 Int numberOrder numberOrder_lawful 1 2 3,
   claim_C3_assoc.2.2.1 Int numberOrder numberOrder_lawful 1 2 3,
   claim_C3_assoc.2.2.2.2.2.2.2.2.2.1 Int 7 numberSumSemigroup numberSumSemigroup_lawful 1 2 3⟩

/-- C4: `reverse(S).combine(that)(self)` equals `S.combine(self)(that)` for
all operands; for any lawful `S` (associative `combine`, `combineMany` the
left fold), `reverse(S).combineMany(xs)(s)` is the left fold of the flipped
combine across `xs` from `s`; and concretely
`reverse(stringSemigroup).combineMany(["b","c","d"])("a") = "dcba"`. -/
theorem claim_C4_reverse :
    (∀ (A : Type) (S : Semigroup A) (that self : A),
       (Semigroup.reverse S).combine that self = S.combine self that) ∧
    (∀ (A : Type) (S : Semigroup A), Semigroup.Lawful S → ∀ (xs : List A) (s : A),
       (Semigroup.reverse S).combineMany xs s
         = foldCombine (Semigroup.reverse S).combine xs s) ∧
    (Semigroup.reverse stringSemigroup).combineMany ["b", "c", "d"] "a" = "dcba" := by
  refine ⟨fun _ _ _ _ => rfl, fun _ S hS => reverse_combineMany_fold S hS, ?_⟩
  decide

/-- C4 witness: the flipped fold law applied to the concrete lawful numeric
sum semigroup. -/
theorem claim_C4_witness :
    (Semigroup.reverse numberSumSemigroup).combineMany [5, 6] 1
      = foldCombine (Semigroup.reverse numberSumSemigroup).combine [5, 6] 1 :=
  claim_C4_reverse.2.1 Int numberSumSemigroup numberSumSemigroup_lawful [5, 6] 1

/-- C6: if `F.map` and `G.map` each satisfy the functor identity law and the
composition law, then `mapComposition(F, G) = f => F.map(G.map(f))` itself
satisfies both laws. -/
theorem claim_C6_mapComposition_laws :
    ∀ (F G : Type → Type) (Fc : Covariant F) (Gc : Covariant G),
      (∀ (A : Type) (x : F A), Fc.map id x = x) →
      (∀ (A B C : Type) (f : A → B) (g : B → C) (x : F A),
        Fc.map (fun a => g (f a)) x = Fc.map g (Fc.map f x)) →
      (∀ (A : Type) (x : G A), Gc.map id x = x) →
      (∀ (A B C : Type) (f : A → B) (g : B → C) (x : G A),
        Gc.map (fun a => g (f a)) x = Gc.map g (Gc.map f x)) →
      (∀ (A : Type) (x : F (G A)), Covariant.mapComposition Fc Gc id x = x) ∧
      (∀ (A B C : Type) (f : A → B) (g : B → C) (x : F (G A)),
        Covariant.mapComposition Fc Gc (fun a => g (f a)) x
          = Covariant.mapComposition Fc Gc g (Covariant.mapComposition Fc Gc f x)) := by
  intro F G Fc Gc hFid hFcomp hGid hGcomp
  constructor
  · intro A x
    show Fc.map (Gc.map id) x = x
    have h1 : Gc.map (id : A → A) = id := funext fun y => hGid A y
    rw [h1]
    exact hFid (G A) x
  · intro A B C f g x
    show Fc.map (Gc.map fun a => g (f a)) x = Fc.map (Gc.map g) (Fc.map (Gc.map f) x)
    have h1 : (Gc.map fun a => g (f a)) = fun y => Gc.map g (Gc.map f y) :=
      funext fun y => hGcomp A B C f g y
    rw [h1]
    exact hFcomp (G A) (G B) (G C) (Gc.map f) (Gc.map g) x

/-- C6 witness: both derived laws evaluated on the identity functor's
`Covariant` instance at concrete inputs. -/
theorem claim_C6_witness :
    Covariant.mapComposition idCovariant idCovariant id (3 : IdF (IdF Nat)) = 3 ∧
    Covariant.mapComposition idCovariant idCovariant
        (fun a : Nat => (fun n : Nat => n + 2) ((fun n : Nat => n + 1) a)) (3 : IdF (IdF Nat))
      = Covariant.mapComposition idCovariant idCovariant (fun n : Nat => n + 2)
          (Covariant.mapComposition idCovariant idCovariant (fun n : Nat => n + 1)
            (3 : IdF (IdF Nat))) :=
  ⟨(claim_C6_mapComposition_laws IdF IdF idCovariant idCovariant
      (fun _ _ => rfl) (fun _ _ _ _ _ _ => rfl) (fun _ _ => rfl)
      (fun _ _ _ _ _ _ => rfl)).1 Nat 3,
   (claim_C6_mapComposition_laws IdF IdF idCovariant idCovariant
      (fun _ _ => rfl) (fun _ _ _ _ _ _ => rfl) (fun _ _ => rfl)
      (fun _ _ _ _ _ _ => rfl)).2 Nat Nat Nat (fun n => n + 1) (fun n => n + 2) 3⟩

end Fp
